import Mathlib

/-!
Verification of the batch revision subsystem of the whitepaper-ai-agent
repository.  Definitions are shallow embeddings of the TypeScript /
Google-Apps-Script sources:

* `src/src/gas/Code.ts` — the bound-script batch orchestrator
  (`rewriteAllCommentedRows`, `detectSourceSheet`, `generateNextVersion`,
  `computeSimpleDiff`, `chunkArray`, `logToBacklog`).
* `src/unnamed/part_009` — the implementation-guide GAS variant
  (`rewriteCommentedRows`, `createDiffRichText`,
  `longestCommonSubsequence`, the in-place update application).
* `src/backend/src/services/openai.ts` — `OpenAIService.generateSchema`
  and `OpenAIService.rewriteBatch`.
* `src/backend/src/routes/schema.ts` — header validation of
  `POST /api/schema/generate`.

Grids are `List (List String)` (row 0 = header), JS objects that map
string keys to string values are association lists, and the external
network call is a parameter of type `Api` returning `Except`.
-/

/-- Model of JavaScript `String.prototype.trim` used on comment cells and
header names: drop whitespace from both ends of the character list. -/
def jsTrim (s : String) : String :=
  String.mk (((s.data.dropWhile Char.isWhitespace).reverse.dropWhile
    Char.isWhitespace).reverse)

/-- Model of JS indexing `row[i]` on a row of cells: out-of-range access
yields `undefined`, which every consumer in the source immediately
coerces to the empty string (the falsy checks and the `?.toString()`
calls with an empty-string fallback). -/
def cellAt (row : List String) (i : Nat) : String := row.getD i ""

/-- Embedding of `chunkArray` (src/src/gas/Code.ts lines 408-414):
`for (let i = 0; i < array.length; i += size) chunks.push(array.slice(i, i + size))`.
The recursion consumes `take size` / `drop size` exactly as the loop
does; `fuel` bounds the number of loop iterations (for `size ≥ 1` the
loop runs at most `array.length` times, so `chunkArray` passes
`array.length` as fuel; for `size = 0` the JS loop never terminates). -/
def chunkGo (size : Nat) : Nat → List α → List (List α)
  | 0, _ => []
  | _, [] => []
  | fuel + 1, l => l.take size :: chunkGo size fuel (l.drop size)

/-- Embedding of `chunkArray` from src/src/gas/Code.ts. -/
def chunkArray (array : List α) (size : Nat) : List (List α) :=
  chunkGo size array.length array

theorem chunkGo_flatten (size : Nat) (hsize : 1 ≤ size) :
    ∀ (fuel : Nat) (l : List α), l.length ≤ fuel →
      (chunkGo size fuel l).flatten = l := by
  intro fuel
  induction fuel with
  | zero =>
      intro l hl
      have : l = [] := List.eq_nil_of_length_eq_zero (Nat.le_zero.mp hl)
      subst this; rfl
  | succ n ih =>
      intro l hl
      cases l with
      | nil => rfl
      | cons a t =>
          simp only [chunkGo, List.flatten_cons]
          rw [ih ((a :: t).drop size) ?_]
          · exact List.take_append_drop size (a :: t)
          · have hlen : ((a :: t).drop size).length = (a :: t).length - size :=
              List.length_drop size (a :: t)
            simp only [List.length_cons] at hl hlen ⊢
            omega

/-- Division helper: for N ≥ 1 the ceiling ⌈N / size⌉ written as
(N + size - 1) / size equals (N - 1) / size + 1. -/
theorem ceil_div_shift (size N : Nat) (hsize : 1 ≤ size) (hN : 1 ≤ N) :
    (N + size - 1) / size = (N - 1) / size + 1 := by
  have h : N + size - 1 = (N - 1) + size := by omega
  rw [h, Nat.add_div_right _ (by omega)]

/-- Division helper: the ceiling numerator after removing one full chunk. -/
theorem ceil_div_sub (size N : Nat) (hsize : 1 ≤ size) (hN : 1 ≤ N) :
    (N - size + size - 1) / size = (N - 1) / size := by
  rcases Nat.le_total N size with hle | hge
  · have h1 : N - size + size - 1 = size - 1 := by omega
    rw [h1, Nat.div_eq_of_lt (by omega), Nat.div_eq_of_lt (by omega)]
  · rcases Nat.lt_or_ge N (size + 1) with hlt | hge'
    · have h2 : N = size := by omega
      subst h2
      have h3 : N - N + N - 1 = N - 1 := by omega
      rw [h3]
    · have h4 : N - size + size - 1 = (N - 1 - size) + size := by omega
      have h5 : N - 1 = (N - 1 - size) + size := by omega
      rw [h4, Nat.add_div_right _ (by omega)]
      conv_rhs => rw [h5, Nat.add_div_right _ (by omega)]

theorem chunkGo_length (size : Nat) (hsize : 1 ≤ size) :
    ∀ (fuel : Nat) (l : List α), l.length ≤ fuel →
      (chunkGo size fuel l).length = (l.length + size - 1) / size := by
  intro fuel
  induction fuel with
  | zero =>
      intro l hl
      have : l = [] := List.eq_nil_of_length_eq_zero (Nat.le_zero.mp hl)
      subst this
      simp only [chunkGo, List.length_nil]
      rw [Nat.zero_add, Nat.div_eq_of_lt (by omega)]
  | succ n ih =>
      intro l hl
      cases l with
      | nil =>
          simp only [chunkGo, List.length_nil]
          rw [Nat.zero_add, Nat.div_eq_of_lt (by omega)]
      | cons a t =>
          have hdlen : ((a :: t).drop size).length = (a :: t).length - size :=
            List.length_drop size (a :: t)
          have hfuel : ((a :: t).drop size).length ≤ n := by
            simp only [List.length_cons] at hl hdlen
            omega
          simp only [chunkGo, List.length_cons]
          rw [ih _ hfuel, hdlen]
          simp only [List.length_cons]
          rw [ceil_div_sub size (t.length + 1) hsize (by omega),
            ceil_div_shift size (t.length + 1) hsize (by omega)]

theorem chunkGo_dropLast_sizes (size : Nat) (hsize : 1 ≤ size) :
    ∀ (fuel : Nat) (l : List α), l.length ≤ fuel →
      ∀ c ∈ (chunkGo size fuel l).dropLast, c.length = size := by
  intro fuel
  induction fuel with
  | zero =>
      intro l hl c hc
      have : l = [] := List.eq_nil_of_length_eq_zero (Nat.le_zero.mp hl)
      subst this
      simp [chunkGo] at hc
  | succ n ih =>
      intro l hl c hc
      cases l with
      | nil => simp [chunkGo] at hc
      | cons a t =>
          simp only [chunkGo] at hc
          cases hcg : chunkGo size n ((a :: t).drop size) with
          | nil =>
              rw [hcg] at hc
              simp at hc
          | cons b u =>
              rw [hcg, List.dropLast_cons₂] at hc
              rcases List.mem_cons.mp hc with hc1 | hc2
              · subst hc1
                have hd : (a :: t).drop size ≠ [] := by
                  intro hnil
                  rw [hnil] at hcg
                  cases n <;> simp [chunkGo] at hcg
                have hlen : size < (a :: t).length := by
                  by_contra hge
                  push_neg at hge
                  exact hd (List.drop_eq_nil_of_le hge)
                rw [List.length_take]
                omega
              · rw [← hcg] at hc2
                have hdlen : ((a :: t).drop size).length = (a :: t).length - size :=
                  List.length_drop size (a :: t)
                have hfuel : ((a :: t).drop size).length ≤ n := by
                  simp only [List.length_cons] at hl hdlen
                  omega
                exact ih _ hfuel c hc2

theorem chunkGo_last_size (size : Nat) (hsize : 1 ≤ size) :
    ∀ (fuel : Nat) (l : List α), l.length ≤ fuel → l ≠ [] →
      l.length % size ≠ 0 →
      ((chunkGo size fuel l).getLast?.getD []).length = l.length % size := by
  intro fuel
  induction fuel with
  | zero =>
      intro l hl hne _
      exact absurd (List.eq_nil_of_length_eq_zero (Nat.le_zero.mp hl)) hne
  | succ n ih =>
      intro l hl hne hmod
      cases l with
      | nil => exact absurd rfl hne
      | cons a t =>
          have hdlen : ((a :: t).drop size).length = (a :: t).length - size :=
            List.length_drop size (a :: t)
          simp only [chunkGo]
          cases hcg : chunkGo size n ((a :: t).drop size) with
          | nil =>
              have hle : (a :: t).length ≤ size := by
                by_contra hgt
                push_neg at hgt
                have hd : (a :: t).drop size ≠ [] := by
                  intro hnil
                  rw [hnil] at hdlen
                  simp only [List.length_nil] at hdlen
                  omega
                cases hd' : (a :: t).drop size with
                | nil => exact hd hd'
                | cons b u =>
                    cases n with
                    | zero =>
                        have := hdlen
                        rw [hd'] at this
                        simp only [List.length_cons, List.length_nil] at this hl
                        omega
                    | succ m =>
                        rw [hd'] at hcg
                        simp [chunkGo] at hcg
              have hlt : (a :: t).length < size := by
                rcases Nat.lt_or_ge (a :: t).length size with h | h
                · exact h
                · have heq : (a :: t).length = size := Nat.le_antisymm hle h
                  rw [heq, Nat.mod_self] at hmod
                  exact absurd rfl hmod
              have hgl : (([(a :: t).take size]).getLast?.getD []) = (a :: t).take size := by
                simp
              rw [hgl, List.length_take, Nat.mod_eq_of_lt hlt]
              omega
          | cons b u =>
              rw [List.getLast?_cons_cons, ← hcg]
              have hgt : size < (a :: t).length := by
                by_contra hge
                push_neg at hge
                rw [List.drop_eq_nil_of_le hge] at hcg
                cases n <;> simp [chunkGo] at hcg
              have hmodeq : ((a :: t).drop size).length % size = (a :: t).length % size := by
                rw [hdlen]
                conv_rhs => rw [show (a :: t).length = ((a :: t).length - size) + size by omega]
                rw [Nat.add_mod_right]
              have hfuel : ((a :: t).drop size).length ≤ n := by
                simp only [List.length_cons] at hl hdlen
                omega
              have hdne : (a :: t).drop size ≠ [] := by
                intro hnil
                rw [hnil] at hcg
                cases n <;> simp [chunkGo] at hcg
              rw [ih _ hfuel hdne (by rw [hmodeq]; exact hmod), hmodeq]

/-- C4: for every list and every batch size B ≥ 1, `chunkArray` produces
exactly ⌈N/B⌉ batches whose concatenation (in order) is the original
list, every batch except possibly the last has size B, and when
N mod B ≠ 0 the last batch has size N mod B. -/
theorem chunkArray_partition (l : List α) (size : Nat) (hsize : 1 ≤ size) :
    (chunkArray l size).flatten = l ∧
    (chunkArray l size).length = (l.length + size - 1) / size ∧
    (∀ c ∈ (chunkArray l size).dropLast, c.length = size) ∧
    (l.length % size ≠ 0 →
      ((chunkArray l size).getLast?.getD []).length = l.length % size) := by
  refine ⟨chunkGo_flatten size hsize _ _ le_rfl,
    chunkGo_length size hsize _ _ le_rfl,
    chunkGo_dropLast_sizes size hsize _ _ le_rfl, ?_⟩
  intro hmod
  have hne : l ≠ [] := by
    intro hnil
    subst hnil
    simp at hmod
  exact chunkGo_last_size size hsize _ _ le_rfl hne hmod

/-- Witness for C4 at a concrete input: 7 rows with batch size 5 give
batches [5, 2]. -/
theorem chunkArray_partition_witness :
    1 ≤ 5 ∧
    ((chunkArray [0, 1, 2, 3, 4, 5, 6] 5).flatten = [0, 1, 2, 3, 4, 5, 6] ∧
      (chunkArray [0, 1, 2, 3, 4, 5, 6] 5).length = (7 + 5 - 1) / 5 ∧
      (∀ c ∈ (chunkArray [0, 1, 2, 3, 4, 5, 6] 5).dropLast, c.length = 5) ∧
      (7 % 5 ≠ 0 →
        ((chunkArray [0, 1, 2, 3, 4, 5, 6] 5).getLast?.getD []).length = 7 % 5)) :=
  ⟨by decide, chunkArray_partition [0, 1, 2, 3, 4, 5, 6] 5 (by decide)⟩

/-- DiffSpan: a half-open character range [start, stop) in the new
string, marked as inserted (the ranges handed to `setTextStyle` with the
red style in both GAS variants). -/
structure DiffSpan where
  start : Nat
  stop : Nat
deriving DecidableEq, Repr

/-- Embedding of `computeSimpleDiff` (src/src/gas/Code.ts lines
394-403): the simplified variant that returns no span for identical
strings and otherwise one insert span covering the entire revised text.
Only insert segments exist, so the span list carries no type tag. -/
def computeSimpleDiff (str1 str2 : List Char) : List DiffSpan :=
  if str1 = str2 then [] else [⟨0, str2.length⟩]

/-- One row-building step of the LCS dynamic-programming table of
`longestCommonSubsequence` (src/unnamed/part_009 lines 1071-1079):
given character `c = str1[i-1]`, the suffix of the previous row starting
at column j-1 (`prev`), and the cell to the left (`left = dp[i][j-1]`),
produce the cells `dp[i][j..n]` of row i. -/
def rowGo (c : Char) : List Char → List Nat → Nat → List Nat
  | [], _, _ => []
  | b :: bs, prev, left =>
    match prev with
    | [] => []
    | pd :: rest =>
      let up := rest.headD 0
      let cell := if c = b then pd + 1 else max up left
      cell :: rowGo c bs rest cell

/-- All rows i = 1..m of the DP table, built row by row from the
previous row, as the nested for loops of part_009 lines 1071-1079 do. -/
def dpRows (s2 : List Char) : List Char → List Nat → List (List Nat)
  | [], _ => []
  | c :: cs, prev =>
    let r := 0 :: rowGo c s2 prev 0
    r :: dpRows s2 cs r

/-- The full DP table `dp` of part_009 line 1069: row 0 and column 0 are
zero-filled, `dp[i][j]` is the LCS length of the first i characters of
str1 and the first j characters of str2. -/
def dpTable (s1 s2 : List Char) : List (List Nat) :=
  let row0 := List.replicate (s2.length + 1) 0
  row0 :: dpRows s2 s1 row0

/-- Table access `dp[i][j]`. -/
def dpAt (t : List (List Nat)) (i j : Nat) : Nat := (t.getD i []).getD j 0

/-- Embedding of the backward reconstruction walk of
`longestCommonSubsequence` (src/unnamed/part_009 lines 1081-1095): from
(i, j) move diagonally on a character match (collecting the character),
otherwise toward the larger `dp` neighbour, preferring `j - 1` on ties
(`dp[i-1][j] > dp[i][j-1]` strict). The walk takes at most i + j steps,
which the `fuel` argument bounds. -/
def lcsWalk (s1 s2 : List Char) (t : List (List Nat)) : Nat → Nat → Nat → List Char
  | 0, _, _ => []
  | fuel + 1, i, j =>
    if 0 < i ∧ 0 < j then
      if s1.getD (i - 1) ' ' = s2.getD (j - 1) ' ' then
        lcsWalk s1 s2 t fuel (i - 1) (j - 1) ++ [s1.getD (i - 1) ' ']
      else if dpAt t (i - 1) j > dpAt t i (j - 1) then
        lcsWalk s1 s2 t fuel (i - 1) j
      else
        lcsWalk s1 s2 t fuel i (j - 1)
    else []

/-- Embedding of `longestCommonSubsequence` (src/unnamed/part_009 lines
1066-1098). -/
def longestCommonSubsequence (s1 s2 : List Char) : List Char :=
  lcsWalk s1 s2 (dpTable s1 s2) (s1.length + s2.length) s1.length s2.length

/-- The inner `while (newIdx < newText.length && newText[newIdx] !== char)`
loop of `createDiffRichText` (part_009 lines 1049-1052): returns the
indices styled red, the remaining suffix of the new text (starting at
the matching character when one was found), and the final `newIdx`. -/
def markNew (c : Char) : List Char → Nat → List Nat × List Char × Nat
  | [], idx => ([], [], idx)
  | x :: xs, idx =>
    if x = c then ([], x :: xs, idx)
    else
      let r := markNew c xs (idx + 1)
      (idx :: r.1, r.2.1, r.2.2)

/-- The inner `while (oldIdx < oldText.length && oldText[oldIdx] !== char)`
loop of `createDiffRichText` (part_009 lines 1045-1047); only the
remaining suffix matters since the old side produces no output. -/
def skipOld (c : Char) : List Char → List Char
  | [] => []
  | x :: xs => if x = c then x :: xs else skipOld c xs

/-- The trailing `while (newIdx < newText.length)` loop of
`createDiffRichText` (part_009 lines 1058-1061): every remaining index
of the new text is styled red. -/
def markRest : List Char → Nat → List Nat
  | [], _ => []
  | _ :: xs, idx => idx :: markRest xs (idx + 1)

/-- The `for` loop over the reconstructed LCS of `createDiffRichText`
(part_009 lines 1042-1061), replayed over suffixes of the old and new
texts; `newIdx` tracks the absolute position in the new text. After the
marking loops both counters advance past the matched character
(`oldIdx++; newIdx++`). -/
def diffWalk : List Char → List Char → List Char → Nat → List Nat
  | [], _, newRem, newIdx => markRest newRem newIdx
  | c :: cs, oldRem, newRem, newIdx =>
    let oldRem2 := (skipOld c oldRem).tail
    let m := markNew c newRem newIdx
    m.1 ++ diffWalk cs oldRem2 m.2.1.tail (m.2.2 + 1)

/-- Embedding of `createDiffRichText` (src/unnamed/part_009 lines
1026-1064) reduced to its observable output: the list of [idx, idx+1)
ranges given the red foreground style, i.e. the character positions of
`newText` marked as inserted relative to `oldText` under the LCS
alignment. Identical texts short-circuit to no styling (line 1027). -/
def createDiffSpans (oldText newText : List Char) : List DiffSpan :=
  if oldText = newText then []
  else
    (diffWalk (longestCommonSubsequence oldText newText) oldText newText 0).map
      (fun p => ⟨p, p + 1⟩)

/-- C5: on the pair oldText "abc", newText "abXc" the LCS-based diff
engine marks exactly the single inserted character "X" at its position
in the new string, the half-open range [2, 3) — not a span covering the
whole new string. -/
theorem createDiffSpans_abc_abXc :
    createDiffSpans ['a', 'b', 'c'] ['a', 'b', 'X', 'c'] = [⟨2, 3⟩] := by
  decide

/-- C8: on an identical pair both diff implementations return the empty
span list: the LCS-based `createDiffRichText` of part_009 and the
simplified `computeSimpleDiff` of Code.ts short-circuit on equality. -/
theorem diff_identical_empty (a : List Char) :
    createDiffSpans a a = [] ∧ computeSimpleDiff a a = [] := by
  constructor <;> simp [createDiffSpans, computeSimpleDiff]

/-- Numeric value of the digit string captured by the regex group
`(\d+)`, as `parseInt` computes it. -/
def digitsToNat (cs : List Char) : Nat :=
  cs.foldl (fun a c => a * 10 + (c.toNat - '0'.toNat)) 0

/-- Model of the test `name.match(/^VER(\d+)$/i)` used by
`detectSourceSheet` (src/src/gas/Code.ts line 220) and
`generateNextVersion` (line 266): the whole name is a case-insensitive
"VER" followed by one or more digits; on a match, the parsed number. -/
def parseVerNum (name : String) : Option Nat :=
  match name.data with
  | c1 :: c2 :: c3 :: rest =>
      if c1.toUpper = 'V' ∧ c2.toUpper = 'E' ∧ c3.toUpper = 'R' ∧
          rest ≠ [] ∧ rest.all Char.isDigit then
        some (digitsToNat rest)
      else none
  | _ => none

/-- The sheet scan of `detectSourceSheet` (src/src/gas/Code.ts lines
216-233): track the highest VERn (strictly greater than the running
maximum, which starts at 0) and the sheet named "Whitepaper Plans". -/
def detectScan : List String → Nat → Option String → Option String →
    Nat × Option String × Option String
  | [], hv, hs, wp => (hv, hs, wp)
  | name :: rest, hv, hs, wp =>
      let p := match parseVerNum name with
        | some v => if v > hv then (v, some name) else (hv, hs)
        | none => (hv, hs)
      let wp2 := if name = "Whitepaper Plans" then some name else wp
      detectScan rest p.1 p.2 wp2

/-- Embedding of `detectSourceSheet` (src/src/gas/Code.ts lines
210-260), on the ordered list of sheet names: highest VERn sheet, else
"Whitepaper Plans", else a sheet literally named "VER1", else the first
sheet not named "Backlog", else the first sheet; `none` only when the
workbook has no sheets at all (JS would return `undefined`). -/
def detectSourceSheet (sheets : List String) : Option String :=
  let scan := detectScan sheets 0 none none
  match scan.2.1 with
  | some s => some s
  | none =>
      match scan.2.2 with
      | some s => some s
      | none =>
          match sheets.find? (fun n => n == "VER1") with
          | some s => some s
          | none =>
              match sheets.find? (fun n => n != "Backlog") with
              | some s => some s
              | none => sheets.head?

/-- Embedding of `generateNextVersion` (src/src/gas/Code.ts lines
265-274): "VER" + (n + 1) when the current name matches VERn, otherwise
"VER2". -/
def generateNextVersion (currentName : String) : String :=
  match parseVerNum currentName with
  | some v => "VER" ++ toString (v + 1)
  | none => "VER2"

/-- C6: on the sheet-name set {VER1, VER3, VER2, Backlog} source-sheet
resolution picks VER3 (highest numeric suffix); the next version of
VER3 is VER4; a non-versioned name such as "Notes" maps to VER2. -/
theorem version_resolution_examples :
    detectSourceSheet ["VER1", "VER3", "VER2", "Backlog"] = some "VER3" ∧
    generateNextVersion "VER3" = "VER4" ∧
    generateNextVersion "Notes" = "VER2" := by
  decide

/-- Entry types written to the Backlog log sheet by `logToBacklog`
(src/src/gas/Code.ts lines 419-463). -/
inductive LogType
  | INFO
  | API_REQUEST
  | API_RESPONSE
  | ERROR
deriving DecidableEq, Repr

/-- One Backlog row as appended by `logToBacklog`: type, batch index
(-1 for run-level entries), status, message. The timestamp and the
JSON-serialized details payload are omitted from the model: no claim
observes them and the timestamp is ambient wall-clock state. -/
structure LogEntry where
  type : LogType
  batchIndex : Int
  status : String
  message : String
deriving DecidableEq, Repr

/-- A collected commented row (src/src/gas/Code.ts lines 72-85):
1-based sheet row index, the original row values, trimmed comment. -/
structure CommentedRow where
  rowIndex : Nat
  row : List String
  comment : String
deriving DecidableEq, Repr

/-- One element of the request payload `batch` built by
`callBackendAPIBatch` (src/src/gas/Code.ts lines 284-295). -/
structure FormattedItem where
  row_index : Nat
  data : List (String × String)
  comment : String
deriving DecidableEq, Repr

/-- A row object of the backend response (`result.data.rows`): a loose
JS object carrying `row_index` plus string fields keyed by header
names. -/
structure RevisedRow where
  row_index : Nat
  fields : List (String × String)
deriving DecidableEq, Repr

/-- JS property read `revisedRow[key]`: first matching key, or
`undefined` (`none`). -/
def RevisedRow.get (r : RevisedRow) (k : String) : Option String :=
  (r.fields.find? (fun p => p.1 == k)).map (fun p => p.2)

/-- The external backend call (`UrlFetchApp.fetch` + status check +
JSON parse in src/src/gas/Code.ts lines 316-335): every failure mode —
transport error, timeout, status ≥ 300, unparseable body,
`success: false` — surfaces as a thrown error, modeled as
`Except.error`. -/
abbrev Api : Type :=
  List FormattedItem → List String → Except String (List RevisedRow)

/-- Batch size constant `BATCH_SIZE` (src/src/gas/Code.ts line 10). -/
def BATCH_SIZE : Nat := 5

/-- The commented-row collection loop of `rewriteAllCommentedRows`
(src/src/gas/Code.ts lines 74-85; the same scan appears in
src/unnamed/part_009 lines 797-813): iterate data rows with values
index i starting at 1, keep rows whose trimmed comment cell is
non-empty, recording `rowIndex = i + 1` and the trimmed comment. -/
def collectGo (ccol : Nat) : Nat → List (List String) → List CommentedRow
  | _, [] => []
  | i, row :: rest =>
      let comment := jsTrim (cellAt row ccol)
      if comment ≠ "" then
        ⟨i + 1, row, comment⟩ :: collectGo ccol (i + 1) rest
      else
        collectGo ccol (i + 1) rest

/-- The commented rows of a grid `headers :: dataRows`; the comment
column is the rightmost header column (line 61). -/
def commentedRowsOf (headers : List String) (dataRows : List (List String)) :
    List CommentedRow :=
  collectGo (headers.length - 1) 1 dataRows

/-- The batches of a run: `chunkArray(commentedRows, BATCH_SIZE)`
(src/src/gas/Code.ts line 93). -/
def batchesOf (headers : List String) (dataRows : List (List String)) :
    List (List CommentedRow) :=
  chunkArray (commentedRowsOf headers dataRows) BATCH_SIZE

/-- Request formatting of `callBackendAPIBatch` (src/src/gas/Code.ts
lines 284-295): row_index, a data object mapping each header to the
cell value (empty string when short), and the comment. -/
def formatItem (headers : List String) (it : CommentedRow) : FormattedItem :=
  ⟨it.rowIndex, headers.enum.map (fun p => (p.2, cellAt it.row p.1)), it.comment⟩

/-- Log entry `logToBacklog(INFO, batchIndex, BATCH_START, ...)`
(src/src/gas/Code.ts line 101). -/
def logBatchStart (bi total : Nat) : LogEntry :=
  ⟨.INFO, (bi : Int), "BATCH_START",
    "Processing batch " ++ toString (bi + 1) ++ "/" ++ toString total⟩

/-- Log entry `logToBacklog(API_REQUEST, -1, SENDING, ...)`
(src/src/gas/Code.ts line 311). -/
def logApiRequest : LogEntry :=
  ⟨.API_REQUEST, -1, "SENDING", "Sending request to Backend API"⟩

/-- Log entry `logToBacklog(API_RESPONSE, -1, SUCCESS, ...)`
(src/src/gas/Code.ts line 330). -/
def logApiReceived : LogEntry :=
  ⟨.API_RESPONSE, -1, "SUCCESS", "Received response from Backend API"⟩

/-- Log entry `logToBacklog(API_RESPONSE, batchIndex, SUCCESS, ...)`
(src/src/gas/Code.ts line 110). -/
def logBatchOk (bi : Nat) : LogEntry :=
  ⟨.API_RESPONSE, (bi : Int), "SUCCESS", "Batch processed successfully"⟩

/-- Log entry `logToBacklog(ERROR, batchIndex, FAILED, ...)`
(src/src/gas/Code.ts line 137): the message carries the failure
message. -/
def logBatchFailed (bi : Nat) (e : String) : LogEntry :=
  ⟨.ERROR, (bi : Int), "FAILED", "Batch failed: " ++ e⟩

/-- Embedding of `callBackendAPIBatch` (src/src/gas/Code.ts lines
279-336): format the batch, log the API_REQUEST, perform the external
call; on success also log the received response. Returns the call
outcome paired with the log entries it appended. -/
def callBackendAPIBatch (api : Api) (headers : List String)
    (batch : List CommentedRow) :
    Except String (List RevisedRow) × List LogEntry :=
  match api (batch.map (formatItem headers)) headers with
  | Except.ok rows => (Except.ok rows, [logApiRequest, logApiReceived])
  | Except.error e => (Except.error e, [logApiRequest])

/-- The revised output row built for one returned result
(src/src/gas/Code.ts lines 120-123): for every header column, the
returned field named by the trimmed header if defined, else the empty
string. -/
def newRowFor (headers : List String) (rr : RevisedRow) : List String :=
  headers.map (fun h => (rr.get (jsTrim h)).getD "")

/-- The result-application loop of `rewriteAllCommentedRows`
(src/src/gas/Code.ts lines 115-125): each returned row is matched to a
batch row by `rowIndex` equality; unmatched results are skipped
(`continue`), matched ones append their revised row. -/
def applyResults (headers : List String) (batch : List CommentedRow)
    (rows : List RevisedRow) : List (List String) :=
  rows.filterMap (fun rr =>
    match batch.find? (fun b => b.rowIndex == rr.row_index) with
    | some _ => some (newRowFor headers rr)
    | none => none)

/-- Output of one iteration of the batch loop: rows appended to the
destination sheet, log entries appended, and the success / failure
counter increments. -/
structure BatchOut where
  rows : List (List String)
  log : List LogEntry
  succ : Nat
  failed : Nat
deriving Repr

/-- One iteration of the batch loop of `rewriteAllCommentedRows`
(src/src/gas/Code.ts lines 98-150): log BATCH_START, call the backend;
on success log the batch API_RESPONSE and append the applied rows
(`totalSuccess` grows by the applied count); on failure log the ERROR
entry with the failure message and append every original row of the
batch (`totalFailed` grows by the batch size). -/
def processBatch (api : Api) (headers : List String) (total bi : Nat)
    (batch : List CommentedRow) : BatchOut :=
  match callBackendAPIBatch api headers batch with
  | (Except.ok rows, clog) =>
      let applied := applyResults headers batch rows
      ⟨applied, logBatchStart bi total :: (clog ++ [logBatchOk bi]),
        applied.length, 0⟩
  | (Except.error e, clog) =>
      ⟨batch.map (fun b => b.row),
        logBatchStart bi total :: (clog ++ [logBatchFailed bi e]),
        0, batch.length⟩

/-- Accumulated output of the whole batch loop. -/
structure LoopOut where
  rows : List (List String)
  log : List LogEntry
  processed : Nat
  succ : Nat
  failed : Nat
deriving Repr

/-- The batch loop of `rewriteAllCommentedRows` (src/src/gas/Code.ts
lines 98-150), sequential over batches with the running batch index;
`totalProcessed` grows by the batch size on both paths. -/
def loopBatches (api : Api) (headers : List String) (total : Nat) :
    Nat → List (List CommentedRow) → LoopOut
  | _, [] => ⟨[], [], 0, 0, 0⟩
  | bi, b :: bs =>
      let o := processBatch api headers total bi b
      let r := loopBatches api headers total (bi + 1) bs
      ⟨o.rows ++ r.rows, o.log ++ r.log, b.length + r.processed,
        o.succ + r.succ, o.failed + r.failed⟩

/-- The observable outcome of one revision run: the destination grid
(header row first), the Backlog entries, and the completion counters. -/
structure RunResult where
  outGrid : List (List String)
  log : List LogEntry
  totalProcessed : Nat
  totalSuccess : Nat
  totalFailed : Nat
deriving Repr

/-- Embedding of `rewriteAllCommentedRows` (src/src/gas/Code.ts lines
27-205) from the point where the source grid has been read: empty grid
is fatal (line 56); otherwise header row first, the rows appended by
the batch loop, then every uncommented data row copied through in
original order (lines 153-160), with the run-level INFO entries around
the loop. Sheet creation, styling and the empty row/column cleanup
(lines 39-49, 64-67, 162-182) only touch ambient spreadsheet
formatting and add further INFO entries, not modeled. -/
def rewriteAllCommentedRows (values : List (List String)) (api : Api) :
    Except String RunResult :=
  match values with
  | [] => Except.error "Source sheet is empty"
  | headers :: dataRows =>
      let ccol := headers.length - 1
      let batches := batchesOf headers dataRows
      let lo := loopBatches api headers batches.length 0 batches
      let passThrough := dataRows.filter (fun row => jsTrim (cellAt row ccol) == "")
      Except.ok
        ⟨headers :: (lo.rows ++ passThrough),
          [⟨.INFO, -1, "START", "Starting rewrite process"⟩,
            ⟨.INFO, -1, "HEADERS", "Headers copied"⟩,
            ⟨.INFO, -1, "COLLECTED", "Found commented rows"⟩] ++
            lo.log ++ [⟨.INFO, -1, "COMPLETED", "Rewrite process completed"⟩],
          lo.processed, lo.succ, lo.failed⟩

theorem collectGo_nil (ccol : Nat) :
    ∀ (rows : List (List String)) (i : Nat),
      (∀ row ∈ rows, jsTrim (cellAt row ccol) = "") →
      collectGo ccol i rows = [] := by
  intro rows
  induction rows with
  | nil => intro i _; rfl
  | cons r t ih =>
      intro i h
      have hr : jsTrim (cellAt r ccol) = "" := h r (List.mem_cons_self r t)
      simp only [collectGo, hr, ne_eq, not_true_eq_false, if_false]
      exact ih (i + 1) (fun row hm => h row (List.mem_cons_of_mem r hm))

/-- C7: a source grid in which no data row has a non-empty trimmed
comment cell runs to completion, outputs a grid identical to the input
(header plus all data rows unchanged, in order), appends no API_REQUEST
log entry, and processes zero rows (zero batches dispatched). -/
theorem run_noop_when_uncommented (headers : List String)
    (dataRows : List (List String)) (api : Api)
    (hnc : ∀ row ∈ dataRows, jsTrim (cellAt row (headers.length - 1)) = "") :
    ∃ r, rewriteAllCommentedRows (headers :: dataRows) api = Except.ok r ∧
      r.outGrid = headers :: dataRows ∧
      r.log.filter (fun e => e.type == LogType.API_REQUEST) = [] ∧
      r.totalProcessed = 0 ∧ r.totalSuccess = 0 ∧ r.totalFailed = 0 := by
  have hc : commentedRowsOf headers dataRows = [] :=
    collectGo_nil _ dataRows 1 hnc
  have hb : batchesOf headers dataRows = [] := by
    rw [batchesOf, hc]; rfl
  have hfil : dataRows.filter
      (fun row => jsTrim (cellAt row (headers.length - 1)) == "") = dataRows := by
    apply List.filter_eq_self.mpr
    intro row hm
    exact beq_iff_eq.mpr (hnc row hm)
  have hrun : rewriteAllCommentedRows (headers :: dataRows) api =
      Except.ok ⟨headers :: dataRows,
        [⟨.INFO, -1, "START", "Starting rewrite process"⟩,
          ⟨.INFO, -1, "HEADERS", "Headers copied"⟩,
          ⟨.INFO, -1, "COLLECTED", "Found commented rows"⟩,
          ⟨.INFO, -1, "COMPLETED", "Rewrite process completed"⟩], 0, 0, 0⟩ := by
    simp only [rewriteAllCommentedRows]
    rw [hb, hfil]
    simp [loopBatches]
  refine ⟨_, hrun, rfl, ?_, rfl, rfl, rfl⟩
  rfl

/-- Witness for C7 at a concrete grid with one uncommented data row. -/
theorem run_noop_witness :
    (∀ row ∈ [["1", "Draft A", ""]],
      jsTrim (cellAt row (((["No", "Title", "Comment"] : List String)).length - 1)) = "") ∧
    (∃ r, rewriteAllCommentedRows
        (["No", "Title", "Comment"] :: [["1", "Draft A", ""]])
        (fun _ _ => Except.ok []) = Except.ok r ∧
      r.outGrid = ["No", "Title", "Comment"] :: [["1", "Draft A", ""]] ∧
      r.log.filter (fun e => e.type == LogType.API_REQUEST) = [] ∧
      r.totalProcessed = 0 ∧ r.totalSuccess = 0 ∧ r.totalFailed = 0) :=
  ⟨by decide,
    run_noop_when_uncommented ["No", "Title", "Comment"] [["1", "Draft A", ""]]
      (fun _ _ => Except.ok []) (by decide)⟩

theorem callBackend_ok {api : Api} {headers : List String}
    {batch : List CommentedRow} {rows : List RevisedRow}
    (h : api (batch.map (formatItem headers)) headers = Except.ok rows) :
    callBackendAPIBatch api headers batch =
      (Except.ok rows, [logApiRequest, logApiReceived]) := by
  simp [callBackendAPIBatch, h]

theorem callBackend_error {api : Api} {headers : List String}
    {batch : List CommentedRow} {e : String}
    (h : api (batch.map (formatItem headers)) headers = Except.error e) :
    callBackendAPIBatch api headers batch = (Except.error e, [logApiRequest]) := by
  simp [callBackendAPIBatch, h]

theorem processBatch_ok {api : Api} {headers : List String}
    {batch : List CommentedRow} {rows : List RevisedRow} (total bi : Nat)
    (h : api (batch.map (formatItem headers)) headers = Except.ok rows) :
    processBatch api headers total bi batch =
      ⟨applyResults headers batch rows,
        [logBatchStart bi total, logApiRequest, logApiReceived, logBatchOk bi],
        (applyResults headers batch rows).length, 0⟩ := by
  simp [processBatch, callBackend_ok h]

theorem processBatch_error {api : Api} {headers : List String}
    {batch : List CommentedRow} {e : String} (total bi : Nat)
    (h : api (batch.map (formatItem headers)) headers = Except.error e) :
    processBatch api headers total bi batch =
      ⟨batch.map (fun b => b.row),
        [logBatchStart bi total, logApiRequest, logBatchFailed bi e],
        0, batch.length⟩ := by
  simp [processBatch, callBackend_error h]

/-- Filter predicate: ERROR log entries attributed to batch index k. -/
def errFilter (k : Nat) (e : LogEntry) : Bool :=
  e.type == LogType.ERROR && e.batchIndex == (k : Int)

theorem beq_info_error : (LogType.INFO == LogType.ERROR) = false := rfl

theorem beq_req_error : (LogType.API_REQUEST == LogType.ERROR) = false := rfl

theorem beq_resp_error : (LogType.API_RESPONSE == LogType.ERROR) = false := rfl

theorem beq_error_error : (LogType.ERROR == LogType.ERROR) = true := rfl

theorem beq_negOne_natCast (k : Nat) : ((-1 : Int) == (k : Int)) = false := by
  rw [beq_eq_false_iff_ne]
  omega

theorem processBatch_errFilter_self {api : Api} {headers : List String}
    {batch : List CommentedRow} {e : String} (total k : Nat)
    (h : api (batch.map (formatItem headers)) headers = Except.error e) :
    ((processBatch api headers total k batch).log).filter (errFilter k) =
      [logBatchFailed k e] := by
  rw [processBatch_error total k h]
  simp [errFilter, logBatchStart, logApiRequest, logBatchFailed, List.filter,
    beq_info_error, beq_req_error, beq_error_error, beq_negOne_natCast]

theorem processBatch_errFilter_ne {api : Api} {headers : List String}
    {batch : List CommentedRow} (total bi k : Nat) (hne : bi ≠ k) :
    ((processBatch api headers total bi batch).log).filter (errFilter k) = [] := by
  have hcast : ((bi : Int) == (k : Int)) = false := by
    rw [beq_eq_false_iff_ne]
    exact fun hcast => hne (by exact_mod_cast hcast)
  cases h : api (batch.map (formatItem headers)) headers with
  | ok rows =>
      rw [processBatch_ok total bi h]
      simp [errFilter, logBatchStart, logApiRequest, logApiReceived, logBatchOk,
        List.filter, beq_info_error, beq_req_error, beq_resp_error,
        beq_negOne_natCast]
  | error e =>
      rw [processBatch_error total bi h]
      simp [errFilter, logBatchStart, logApiRequest, logBatchFailed, List.filter,
        beq_info_error, beq_req_error, beq_error_error, beq_negOne_natCast, hcast]

theorem loop_errFilter_none (api : Api) (headers : List String) (total k : Nat) :
    ∀ (bs : List (List CommentedRow)) (bi : Nat), k < bi →
      ((loopBatches api headers total bi bs).log).filter (errFilter k) = [] := by
  intro bs
  induction bs with
  | nil => intro bi _; rfl
  | cons b rest ih =>
      intro bi hk
      show ((processBatch api headers total bi b).log ++
        (loopBatches api headers total (bi + 1) rest).log).filter (errFilter k) = []
      rw [List.filter_append, processBatch_errFilter_ne total bi k (by omega),
        ih (bi + 1) (by omega)]
      rfl

theorem loop_errFilter (api : Api) (headers : List String) (total k : Nat)
    (msg : String) :
    ∀ (bs : List (List CommentedRow)) (bi : Nat), bi ≤ k → k - bi < bs.length →
      api ((bs.getD (k - bi) []).map (formatItem headers)) headers =
        Except.error msg →
      ((loopBatches api headers total bi bs).log).filter (errFilter k) =
        [logBatchFailed k msg] := by
  intro bs
  induction bs with
  | nil =>
      intro bi _ hlt _
      simp at hlt
  | cons b rest ih =>
      intro bi hle hlt hfail
      show ((processBatch api headers total bi b).log ++
        (loopBatches api headers total (bi + 1) rest).log).filter (errFilter k) = _
      rw [List.filter_append]
      by_cases hbi : bi = k
      · subst hbi
        rw [Nat.sub_self, List.getD_cons_zero] at hfail
        rw [processBatch_errFilter_self total bi hfail,
          loop_errFilter_none api headers total bi rest (bi + 1) (by omega)]
        rfl
      · have hlt2 : k - (bi + 1) < rest.length := by
          simp only [List.length_cons] at hlt
          omega
        have hfail2 : api ((rest.getD (k - (bi + 1)) []).map (formatItem headers))
            headers = Except.error msg := by
          have hidx : k - bi = (k - (bi + 1)) + 1 := by omega
          rw [hidx, List.getD_cons_succ] at hfail
          exact hfail
        rw [processBatch_errFilter_ne total bi k hbi, ih (bi + 1) (by omega) hlt2 hfail2]
        rfl

theorem loop_rows_infix (api : Api) (headers : List String) (total k : Nat)
    (msg : String) :
    ∀ (bs : List (List CommentedRow)) (bi : Nat), bi ≤ k → k - bi < bs.length →
      api ((bs.getD (k - bi) []).map (formatItem headers)) headers =
        Except.error msg →
      ∃ pre post, (loopBatches api headers total bi bs).rows =
        pre ++ (bs.getD (k - bi) []).map (fun b => b.row) ++ post := by
  intro bs
  induction bs with
  | nil =>
      intro bi _ hlt _
      simp at hlt
  | cons b rest ih =>
      intro bi hle hlt hfail
      by_cases hbi : bi = k
      · subst hbi
        rw [Nat.sub_self, List.getD_cons_zero] at hfail ⊢
        refine ⟨[], (loopBatches api headers total (bi + 1) rest).rows, ?_⟩
        show (processBatch api headers total bi b).rows ++ _ = _
        rw [processBatch_error total bi hfail]
        simp
      · have hlt2 : k - (bi + 1) < rest.length := by
          simp only [List.length_cons] at hlt
          omega
        have hidx : k - bi = (k - (bi + 1)) + 1 := by omega
        rw [hidx, List.getD_cons_succ] at hfail ⊢
        obtain ⟨pre, post, hp⟩ := ih (bi + 1) (by omega) hlt2 hfail
        refine ⟨(processBatch api headers total bi b).rows ++ pre, post, ?_⟩
        show (processBatch api headers total bi b).rows ++ _ = _
        rw [hp]
        simp [List.append_assoc]

theorem processBatch_start_mem (api : Api) (headers : List String)
    (total bi : Nat) (b : List CommentedRow) :
    logBatchStart bi total ∈ (processBatch api headers total bi b).log := by
  cases h : api (b.map (formatItem headers)) headers with
  | ok rows => rw [processBatch_ok total bi h]; simp
  | error e => rw [processBatch_error total bi h]; simp

theorem processBatch_outcome_mem (api : Api) (headers : List String)
    (total bi : Nat) (b : List CommentedRow) :
    ∃ e ∈ (processBatch api headers total bi b).log,
      e.batchIndex = (bi : Int) ∧
      (e.type = LogType.API_RESPONSE ∨ e.type = LogType.ERROR) := by
  cases h : api (b.map (formatItem headers)) headers with
  | ok rows =>
      rw [processBatch_ok total bi h]
      exact ⟨logBatchOk bi, by simp, rfl, Or.inl rfl⟩
  | error e =>
      rw [processBatch_error total bi h]
      exact ⟨logBatchFailed bi e, by simp, rfl, Or.inr rfl⟩

theorem loop_has_batch_start (api : Api) (headers : List String) (total : Nat) :
    ∀ (bs : List (List CommentedRow)) (bi j : Nat), bi ≤ j → j - bi < bs.length →
      ∃ e ∈ (loopBatches api headers total bi bs).log,
        e.type = LogType.INFO ∧ e.status = "BATCH_START" ∧
        e.batchIndex = (j : Int) := by
  intro bs
  induction bs with
  | nil =>
      intro bi j _ hlt
      simp at hlt
  | cons b rest ih =>
      intro bi j hle hlt
      by_cases hbi : bi = j
      · subst hbi
        refine ⟨logBatchStart bi total, ?_, rfl, rfl, rfl⟩
        show _ ∈ (processBatch api headers total bi b).log ++ _
        exact List.mem_append_left _ (processBatch_start_mem api headers total bi b)
      · have hlt2 : j - (bi + 1) < rest.length := by
          simp only [List.length_cons] at hlt
          omega
        obtain ⟨e, hm, hp⟩ := ih (bi + 1) j (by omega) hlt2
        refine ⟨e, ?_, hp⟩
        show _ ∈ (processBatch api headers total bi b).log ++ _
        exact List.mem_append_right _ hm

theorem loop_has_outcome (api : Api) (headers : List String) (total : Nat) :
    ∀ (bs : List (List CommentedRow)) (bi j : Nat), bi ≤ j → j - bi < bs.length →
      ∃ e ∈ (loopBatches api headers total bi bs).log,
        e.batchIndex = (j : Int) ∧
        (e.type = LogType.API_RESPONSE ∨ e.type = LogType.ERROR) := by
  intro bs
  induction bs with
  | nil =>
      intro bi j _ hlt
      simp at hlt
  | cons b rest ih =>
      intro bi j hle hlt
      by_cases hbi : bi = j
      · subst hbi
        obtain ⟨e, hm, hp⟩ := processBatch_outcome_mem api headers total bi b
        refine ⟨e, ?_, hp⟩
        show _ ∈ (processBatch api headers total bi b).log ++ _
        exact List.mem_append_left _ hm
      · have hlt2 : j - (bi + 1) < rest.length := by
          simp only [List.length_cons] at hlt
          omega
        obtain ⟨e, hm, hp⟩ := ih (bi + 1) j (by omega) hlt2
        refine ⟨e, ?_, hp⟩
        show _ ∈ (processBatch api headers total bi b).log ++ _
        exact List.mem_append_right _ hm

/-- Unfolding equation for the main run on a non-empty grid. -/
theorem rewriteAll_cons_eq (headers : List String)
    (dataRows : List (List String)) (api : Api) :
    rewriteAllCommentedRows (headers :: dataRows) api = Except.ok
      ⟨headers :: ((loopBatches api headers (batchesOf headers dataRows).length 0
          (batchesOf headers dataRows)).rows ++
          dataRows.filter (fun row => jsTrim (cellAt row (headers.length - 1)) == "")),
        [⟨.INFO, -1, "START", "Starting rewrite process"⟩,
          ⟨.INFO, -1, "HEADERS", "Headers copied"⟩,
          ⟨.INFO, -1, "COLLECTED", "Found commented rows"⟩] ++
          (loopBatches api headers (batchesOf headers dataRows).length 0
            (batchesOf headers dataRows)).log ++
          [⟨.INFO, -1, "COMPLETED", "Rewrite process completed"⟩],
        (loopBatches api headers (batchesOf headers dataRows).length 0
          (batchesOf headers dataRows)).processed,
        (loopBatches api headers (batchesOf headers dataRows).length 0
          (batchesOf headers dataRows)).succ,
        (loopBatches api headers (batchesOf headers dataRows).length 0
          (batchesOf headers dataRows)).failed⟩ := rfl

/-- C1: when the backend call for batch k fails with message msg, the
run still completes; the ERROR entries attributed to batch k are
exactly one entry carrying the failure message; the original rows of
batch k appear contiguously and unchanged in the output grid; and every
batch of the run — including every batch after k — is still dispatched
(has its BATCH_START entry) and processed to an outcome (has an
API_RESPONSE or ERROR entry with its index). -/
theorem batch_failure_contained (headers : List String)
    (dataRows : List (List String)) (api : Api) (k : Nat) (msg : String)
    (hk : k < (batchesOf headers dataRows).length)
    (hfail : api (((batchesOf headers dataRows).getD k []).map
        (formatItem headers)) headers = Except.error msg) :
    ∃ r, rewriteAllCommentedRows (headers :: dataRows) api = Except.ok r ∧
      r.log.filter (errFilter k) = [logBatchFailed k msg] ∧
      (∃ pre post, r.outGrid = pre ++
        ((batchesOf headers dataRows).getD k []).map (fun b => b.row) ++ post) ∧
      (∀ j, j < (batchesOf headers dataRows).length →
        ∃ e ∈ r.log, e.type = LogType.INFO ∧ e.status = "BATCH_START" ∧
          e.batchIndex = (j : Int)) ∧
      (∀ j, j < (batchesOf headers dataRows).length →
        ∃ e ∈ r.log, e.batchIndex = (j : Int) ∧
          (e.type = LogType.API_RESPONSE ∨ e.type = LogType.ERROR)) := by
  rw [rewriteAll_cons_eq]
  refine ⟨_, rfl, ?_, ?_, ?_, ?_⟩
  · have hmid := loop_errFilter api headers (batchesOf headers dataRows).length k
      msg (batchesOf headers dataRows) 0 (Nat.zero_le k) hk hfail
    show (([⟨.INFO, -1, "START", "Starting rewrite process"⟩,
        ⟨.INFO, -1, "HEADERS", "Headers copied"⟩,
        ⟨.INFO, -1, "COLLECTED", "Found commented rows"⟩] : List LogEntry) ++
        (loopBatches api headers (batchesOf headers dataRows).length 0
          (batchesOf headers dataRows)).log ++
        ([⟨.INFO, -1, "COMPLETED", "Rewrite process completed"⟩] :
          List LogEntry)).filter
        (errFilter k) = [logBatchFailed k msg]
    rw [List.filter_append, List.filter_append, hmid]
    rfl
  · obtain ⟨pre, post, hp⟩ := loop_rows_infix api headers
      (batchesOf headers dataRows).length k msg (batchesOf headers dataRows) 0
      (Nat.zero_le k) hk hfail
    refine ⟨headers :: pre,
      post ++ dataRows.filter
        (fun row => jsTrim (cellAt row (headers.length - 1)) == ""), ?_⟩
    show headers :: ((loopBatches api headers (batchesOf headers dataRows).length 0
        (batchesOf headers dataRows)).rows ++
        dataRows.filter (fun row => jsTrim (cellAt row (headers.length - 1)) == "")) = _
    rw [hp]
    simp [List.append_assoc]
  · intro j hj
    obtain ⟨e, hm, hp⟩ := loop_has_batch_start api headers
      (batchesOf headers dataRows).length (batchesOf headers dataRows) 0 j
      (Nat.zero_le j) hj
    exact ⟨e, List.mem_append_left _ (List.mem_append_right _ hm), hp⟩
  · intro j hj
    obtain ⟨e, hm, hp⟩ := loop_has_outcome api headers
      (batchesOf headers dataRows).length (batchesOf headers dataRows) 0 j
      (Nat.zero_le j) hj
    exact ⟨e, List.mem_append_left _ (List.mem_append_right _ hm), hp⟩

/-- Witness for C1 at a concrete grid with one commented row whose
single batch call fails. -/
theorem batch_failure_contained_witness :
    (0 < (batchesOf ["No", "Title", "Comment"] [["1", "A", "fix"]]).length) ∧
    (((fun _ _ => Except.error "boom") : Api)
        (((batchesOf ["No", "Title", "Comment"] [["1", "A", "fix"]]).getD 0 []).map
          (formatItem ["No", "Title", "Comment"])) ["No", "Title", "Comment"] =
      Except.error "boom") ∧
    (∃ r, rewriteAllCommentedRows
        (["No", "Title", "Comment"] :: [["1", "A", "fix"]])
        ((fun _ _ => Except.error "boom") : Api) = Except.ok r ∧
      r.log.filter (errFilter 0) = [logBatchFailed 0 "boom"] ∧
      (∃ pre post, r.outGrid = pre ++
        ((batchesOf ["No", "Title", "Comment"] [["1", "A", "fix"]]).getD 0 []).map
          (fun b => b.row) ++ post) ∧
      (∀ j, j < (batchesOf ["No", "Title", "Comment"] [["1", "A", "fix"]]).length →
        ∃ e ∈ r.log, e.type = LogType.INFO ∧ e.status = "BATCH_START" ∧
          e.batchIndex = (j : Int)) ∧
      (∀ j, j < (batchesOf ["No", "Title", "Comment"] [["1", "A", "fix"]]).length →
        ∃ e ∈ r.log, e.batchIndex = (j : Int) ∧
          (e.type = LogType.API_RESPONSE ∨ e.type = LogType.ERROR))) :=
  ⟨by decide, rfl,
    batch_failure_contained ["No", "Title", "Comment"] [["1", "A", "fix"]]
      ((fun _ _ => Except.error "boom") : Api) 0 "boom" (by decide) rfl⟩

theorem any_map_general {α β : Type} (f : α → β) (l : List α) (p : β → Bool) :
    (l.map f).any p = l.any (fun a => p (f a)) := by
  induction l with
  | nil => rfl
  | cons a t ih => simp [List.any_cons, ih]

/-- Dropping from a response every result whose row_index matches no
row_index of the request batch. -/
def filterMatched (fb : List FormattedItem) (rows : List RevisedRow) :
    List RevisedRow :=
  rows.filter (fun rr => fb.any (fun it => it.row_index == rr.row_index))

theorem applyResults_cons_none (headers : List String)
    (batch : List CommentedRow) (rr : RevisedRow) (rest : List RevisedRow)
    (hf : batch.find? (fun b => b.rowIndex == rr.row_index) = none) :
    applyResults headers batch (rr :: rest) = applyResults headers batch rest := by
  simp only [applyResults, List.filterMap_cons, hf]

theorem applyResults_cons_some (headers : List String)
    (batch : List CommentedRow) (rr : RevisedRow) (rest : List RevisedRow)
    (b : CommentedRow)
    (hf : batch.find? (fun b2 => b2.rowIndex == rr.row_index) = some b) :
    applyResults headers batch (rr :: rest) =
      newRowFor headers rr :: applyResults headers batch rest := by
  simp only [applyResults, List.filterMap_cons, hf]

theorem applyResults_filterMatched (headers : List String)
    (batch : List CommentedRow) :
    ∀ rows : List RevisedRow,
      applyResults headers batch
        (filterMatched (batch.map (formatItem headers)) rows) =
        applyResults headers batch rows := by
  intro rows
  induction rows with
  | nil => rfl
  | cons rr rest ih =>
      have hany : (batch.map (formatItem headers)).any
          (fun it => it.row_index == rr.row_index)
          = batch.any (fun b => b.rowIndex == rr.row_index) := by
        rw [any_map_general]
        rfl
      simp only [filterMatched] at ih ⊢
      cases hf : batch.find? (fun b => b.rowIndex == rr.row_index) with
      | none =>
          have hfalse : batch.any (fun b => b.rowIndex == rr.row_index) = false := by
            rw [List.any_eq_false]
            intro b hb
            simpa using List.find?_eq_none.mp hf b hb
          rw [List.filter_cons, hany, hfalse]
          simp only [if_false, Bool.false_eq_true]
          rw [ih, applyResults_cons_none headers batch rr rest hf]
      | some b =>
          have htrue : batch.any (fun b2 => b2.rowIndex == rr.row_index) = true := by
            rw [List.any_eq_true]
            have hpb := List.find?_some hf
            exact ⟨b, List.mem_of_find?_eq_some hf, hpb⟩
          rw [List.filter_cons, hany, htrue]
          simp only [if_true]
          rw [applyResults_cons_some headers batch rr _ b hf,
            applyResults_cons_some headers batch rr rest b hf, ih]

/-- C3: a result whose row_index equals no row_index of the request
batch is discarded — deleting all such results from every response
leaves the entire run (output grid, log, counters) unchanged. -/
theorem unmatched_results_discarded (values : List (List String)) (api : Api) :
    rewriteAllCommentedRows values
      (fun fb hdrs => (api fb hdrs).map (filterMatched fb)) =
    rewriteAllCommentedRows values api := by
  cases values with
  | nil => rfl
  | cons headers dataRows =>
      have hloop : ∀ (bs : List (List CommentedRow)) (total bi : Nat),
          loopBatches (fun fb hdrs => (api fb hdrs).map (filterMatched fb))
            headers total bi bs =
          loopBatches api headers total bi bs := by
        intro bs
        induction bs with
        | nil => intro total bi; rfl
        | cons b rest ih =>
            intro total bi
            have hpb : processBatch
                (fun fb hdrs => (api fb hdrs).map (filterMatched fb))
                headers total bi b = processBatch api headers total bi b := by
              cases h : api (b.map (formatItem headers)) headers with
              | ok rows =>
                  have h2 : (fun fb hdrs => (api fb hdrs).map (filterMatched fb))
                      (b.map (formatItem headers)) headers =
                      Except.ok (filterMatched (b.map (formatItem headers)) rows) := by
                    simp [h, Except.map]
                  rw [processBatch_ok total bi h2, processBatch_ok total bi h,
                    applyResults_filterMatched]
              | error e =>
                  have h2 : (fun fb hdrs => (api fb hdrs).map (filterMatched fb))
                      (b.map (formatItem headers)) headers = Except.error e := by
                    simp [h, Except.map]
                  rw [processBatch_error total bi h2, processBatch_error total bi h]
            simp only [loopBatches, hpb, ih]
      rw [rewriteAll_cons_eq, rewriteAll_cons_eq, hloop]

/-- A single destination-sheet cell write
`newSheet.getRange(rowIndex, colIndex + 1).setRichTextValue(richText)`
(src/unnamed/part_009 line 868), on the grid model: replace cell
(r, c), 0-based. `List.set` out of range is a no-op; valid updates
never reach that case. -/
def setCell (grid : List (List String)) (r c : Nat) (v : String) :
    List (List String) :=
  grid.set r ((grid.getD r []).set c v)

/-- The per-column loop `headers.forEach((header, colIndex) => ...)` of
the update application in `rewriteCommentedRows` (src/unnamed/part_009
lines 860-870): skip the comment column; when the update object carries
the header key (`header in update && update[header] !== undefined`),
write the new value into the cell of sheet row `u.row_index` at that
column; otherwise the cell keeps the value copied from the source
sheet. `ci` is the running column index, `rowPos = u.row_index - 1` the
0-based grid row. -/
def applyUpdateGo (u : RevisedRow) (ccol rowPos : Nat) :
    List String → Nat → List (List String) → List (List String)
  | [], _, g => g
  | h :: hs, ci, g =>
      let g2 := if ci = ccol then g
        else match u.get h with
          | some v => setCell g rowPos ci v
          | none => g
      applyUpdateGo u ccol rowPos hs (ci + 1) g2

/-- One update of the `updates.forEach(update => ...)` loop
(src/unnamed/part_009 lines 857-871). -/
def applyUpdate (headers : List String) (ccol : Nat)
    (g : List (List String)) (u : RevisedRow) : List (List String) :=
  applyUpdateGo u ccol (u.row_index - 1) headers 0 g

/-- The whole update-application loop of one batch
(src/unnamed/part_009 lines 857-871), starting from the grid copied
verbatim from the source sheet (lines 824-826). -/
def applyUpdates (headers : List String) (ccol : Nat)
    (g : List (List String)) (updates : List RevisedRow) :
    List (List String) :=
  updates.foldl (applyUpdate headers ccol) g

theorem setCell_length (g : List (List String)) (r c : Nat) (v : String) :
    (setCell g r c v).length = g.length := by
  simp [setCell]

theorem setCell_getD_ne_row (g : List (List String)) {r r2 : Nat} (c : Nat)
    (v : String) (h : r2 ≠ r) :
    (setCell g r c v).getD r2 [] = g.getD r2 [] := by
  simp [setCell, List.getD_eq_getElem?_getD, List.getElem?_set_ne (Ne.symm h)]

theorem setCell_rowlen (g : List (List String)) (r c : Nat) (v : String)
    (r2 : Nat) :
    ((setCell g r c v).getD r2 []).length = (g.getD r2 []).length := by
  by_cases h : r2 = r
  · subst h
    by_cases hr : r2 < g.length
    · simp [setCell, List.getD_eq_getElem?_getD, List.getElem?_set_self hr,
        List.getElem?_eq_getElem hr]
    · have hge : g.length ≤ r2 := Nat.le_of_not_lt hr
      simp [setCell, List.getD_eq_getElem?_getD, List.set_eq_of_length_le hge,
        List.getElem?_eq_none hge]
  · rw [setCell_getD_ne_row g c v h]

theorem setCell_read_ne_col (g : List (List String)) (r : Nat) {c p : Nat}
    (v : String) (hp : p ≠ c) :
    ((setCell g r c v).getD r []).getD p "" = (g.getD r []).getD p "" := by
  by_cases hr : r < g.length
  · have h1 : (setCell g r c v).getD r [] = (g.getD r []).set c v := by
      simp [setCell, List.getD_eq_getElem?_getD, List.getElem?_set_self hr]
    rw [h1]
    simp [List.getD_eq_getElem?_getD, List.getElem?_set_ne (Ne.symm hp)]
  · have hge : g.length ≤ r := Nat.le_of_not_lt hr
    simp [setCell, List.set_eq_of_length_le hge]

theorem setCell_read_eq (g : List (List String)) {r c : Nat} (v : String)
    (hr : r < g.length) (hc : c < (g.getD r []).length) :
    ((setCell g r c v).getD r []).getD c "" = v := by
  have h1 : (setCell g r c v).getD r [] = (g.getD r []).set c v := by
    simp [setCell, List.getD_eq_getElem?_getD, List.getElem?_set_self hr]
  rw [h1, List.getD_eq_getElem?_getD, List.getElem?_set_self hc, Option.getD_some]

theorem applyUpdateGo_length (u : RevisedRow) (ccol rowPos : Nat) :
    ∀ (hs : List String) (ci : Nat) (g : List (List String)),
      (applyUpdateGo u ccol rowPos hs ci g).length = g.length := by
  intro hs
  induction hs with
  | nil => intro ci g; rfl
  | cons h hs ih =>
      intro ci g
      simp only [applyUpdateGo]
      rw [ih]
      by_cases hc : ci = ccol
      · rw [if_pos hc]
      · rw [if_neg hc]
        cases hu : u.get h with
        | none => rfl
        | some v => exact setCell_length g rowPos ci v

theorem applyUpdateGo_rowlen (u : RevisedRow) (ccol rowPos : Nat) :
    ∀ (hs : List String) (ci : Nat) (g : List (List String)) (r2 : Nat),
      ((applyUpdateGo u ccol rowPos hs ci g).getD r2 []).length =
        (g.getD r2 []).length := by
  intro hs
  induction hs with
  | nil => intro ci g r2; rfl
  | cons h hs ih =>
      intro ci g r2
      simp only [applyUpdateGo]
      rw [ih]
      by_cases hc : ci = ccol
      · rw [if_pos hc]
      · rw [if_neg hc]
        cases hu : u.get h with
        | none => rfl
        | some v => exact setCell_rowlen g rowPos ci v r2

theorem applyUpdateGo_other_row (u : RevisedRow) (ccol rowPos : Nat) :
    ∀ (hs : List String) (ci : Nat) (g : List (List String)) (r2 : Nat),
      r2 ≠ rowPos →
      (applyUpdateGo u ccol rowPos hs ci g).getD r2 [] = g.getD r2 [] := by
  intro hs
  induction hs with
  | nil => intro ci g r2 _; rfl
  | cons h hs ih =>
      intro ci g r2 hr2
      simp only [applyUpdateGo]
      rw [ih _ _ _ hr2]
      by_cases hc : ci = ccol
      · rw [if_pos hc]
      · rw [if_neg hc]
        cases hu : u.get h with
        | none => rfl
        | some v => exact setCell_getD_ne_row g ci v hr2

theorem applyUpdateGo_col_lt (u : RevisedRow) (ccol rowPos : Nat) :
    ∀ (hs : List String) (ci : Nat) (g : List (List String)) (p : Nat),
      p < ci →
      ((applyUpdateGo u ccol rowPos hs ci g).getD rowPos []).getD p "" =
        (g.getD rowPos []).getD p "" := by
  intro hs
  induction hs with
  | nil => intro ci g p _; rfl
  | cons h hs ih =>
      intro ci g p hp
      simp only [applyUpdateGo]
      rw [ih (ci + 1) _ p (by omega)]
      by_cases hc : ci = ccol
      · rw [if_pos hc]
      · rw [if_neg hc]
        cases hu : u.get h with
        | none => rfl
        | some v => exact setCell_read_ne_col g rowPos v (by omega)

theorem applyUpdateGo_read (u : RevisedRow) (ccol rowPos : Nat) :
    ∀ (hs : List String) (ci : Nat) (g : List (List String)) (p : Nat),
      ci ≤ p → p - ci < hs.length → rowPos < g.length →
      p < (g.getD rowPos []).length →
      ((applyUpdateGo u ccol rowPos hs ci g).getD rowPos []).getD p "" =
        (if p = ccol then (g.getD rowPos []).getD p ""
         else (u.get (hs.getD (p - ci) "")).getD ((g.getD rowPos []).getD p "")) := by
  intro hs
  induction hs with
  | nil =>
      intro ci g p _ h2 _ _
      simp at h2
  | cons h hs ih =>
      intro ci g p hle hlt hrow hcol
      simp only [applyUpdateGo]
      by_cases hp : p = ci
      · subst hp
        rw [applyUpdateGo_col_lt u ccol rowPos hs (p + 1) _ p (by omega),
          Nat.sub_self, List.getD_cons_zero]
        by_cases hcc : p = ccol
        · rw [if_pos hcc, if_pos hcc]
        · rw [if_neg hcc, if_neg hcc]
          cases hu : u.get h with
          | none => simp
          | some v =>
              simp only [Option.getD_some]
              exact setCell_read_eq g v hrow hcol
      · have hlt2 : p - (ci + 1) < hs.length := by
          simp only [List.length_cons] at hlt
          omega
        have hstep :
            ∀ g2 : List (List String),
              g2 = (if ci = ccol then g
                else match u.get h with
                  | some v => setCell g rowPos ci v
                  | none => g) →
              g2.length = g.length ∧
              (g2.getD rowPos []).length = (g.getD rowPos []).length ∧
              (g2.getD rowPos []).getD p "" = (g.getD rowPos []).getD p "" := by
          intro g2 hg2
          subst hg2
          by_cases hcc : ci = ccol
          · rw [if_pos hcc]
            exact ⟨rfl, rfl, rfl⟩
          · rw [if_neg hcc]
            cases hu : u.get h with
            | none => exact ⟨rfl, rfl, rfl⟩
            | some v =>
                exact ⟨setCell_length g rowPos ci v,
                  setCell_rowlen g rowPos ci v rowPos,
                  setCell_read_ne_col g rowPos v hp⟩
        obtain ⟨hl, hrl, hcp⟩ := hstep _ rfl
        rw [ih (ci + 1) _ p (by omega) hlt2 (by rw [hl]; exact hrow)
          (by rw [hrl]; exact hcol)]
        rw [hcp]
        have hidx : p - ci = (p - (ci + 1)) + 1 := by omega
        rw [hidx, List.getD_cons_succ]

theorem applyUpdate_other_row (headers : List String) (ccol : Nat)
    (g : List (List String)) (u : RevisedRow) {r2 : Nat}
    (h : r2 ≠ u.row_index - 1) :
    (applyUpdate headers ccol g u).getD r2 [] = g.getD r2 [] :=
  applyUpdateGo_other_row u ccol (u.row_index - 1) headers 0 g r2 h

theorem applyUpdates_other_row (headers : List String) (ccol : Nat) :
    ∀ (us : List RevisedRow) (g : List (List String)) (r2 : Nat),
      (∀ u' ∈ us, r2 ≠ u'.row_index - 1) →
      (applyUpdates headers ccol g us).getD r2 [] = g.getD r2 [] := by
  intro us
  induction us with
  | nil => intro g r2 _; rfl
  | cons u' us ih =>
      intro g r2 h
      show (applyUpdates headers ccol (applyUpdate headers ccol g u') us).getD r2 []
        = _
      rw [ih _ _ (fun x hx => h x (List.mem_cons_of_mem _ hx)),
        applyUpdate_other_row headers ccol g u' (h u' (List.mem_cons_self _ _))]

theorem applyUpdates_length (headers : List String) (ccol : Nat) :
    ∀ (us : List RevisedRow) (g : List (List String)),
      (applyUpdates headers ccol g us).length = g.length := by
  intro us
  induction us with
  | nil => intro g; rfl
  | cons u' us ih =>
      intro g
      show (applyUpdates headers ccol (applyUpdate headers ccol g u') us).length = _
      rw [ih]
      exact applyUpdateGo_length u' ccol (u'.row_index - 1) headers 0 g

theorem applyUpdates_rowlen (headers : List String) (ccol : Nat) :
    ∀ (us : List RevisedRow) (g : List (List String)) (r2 : Nat),
      ((applyUpdates headers ccol g us).getD r2 []).length =
        (g.getD r2 []).length := by
  intro us
  induction us with
  | nil => intro g r2; rfl
  | cons u' us ih =>
      intro g r2
      show ((applyUpdates headers ccol (applyUpdate headers ccol g u') us).getD
        r2 []).length = _
      rw [ih]
      exact applyUpdateGo_rowlen u' ccol (u'.row_index - 1) headers 0 g r2

theorem collectGo_rowIndex_bound (ccol : Nat) :
    ∀ (rows : List (List String)) (i : Nat) (x : CommentedRow),
      x ∈ collectGo ccol i rows →
      i + 1 ≤ x.rowIndex ∧ x.rowIndex ≤ i + rows.length := by
  intro rows
  induction rows with
  | nil => intro i x hx; simp [collectGo] at hx
  | cons r t ih =>
      intro i x hx
      simp only [collectGo] at hx
      by_cases hc : jsTrim (cellAt r ccol) ≠ ""
      · rw [if_pos hc] at hx
        rcases List.mem_cons.mp hx with h1 | h2
        · subst h1
          simp only [List.length_cons]
          omega
        · have hb := ih (i + 1) x h2
          simp only [List.length_cons]
          omega
      · rw [if_neg hc] at hx
        have hb := ih (i + 1) x hx
        simp only [List.length_cons]
        omega

/-- C2: in the part_009 update application, for every returned result u
whose row index matches a commented row of the grid (row indices
distinct across the response), the revised output row carries, in every
non-comment column, the returned field value named by the header of
that column when present, and the original cell value otherwise. -/
theorem revised_row_cell_values (headers : List String)
    (dataRows : List (List String)) (updates : List RevisedRow)
    (u : RevisedRow)
    (hrect : ∀ row ∈ headers :: dataRows, row.length = headers.length)
    (hnodup : (updates.map (fun x => x.row_index)).Nodup)
    (hu : u ∈ updates)
    (hmem : u.row_index ∈ (commentedRowsOf headers dataRows).map
        (fun x => x.rowIndex))
    (p : Nat) (hp : p < headers.length) (hpc : p ≠ headers.length - 1) :
    ((applyUpdates headers (headers.length - 1) (headers :: dataRows)
        updates).getD (u.row_index - 1) []).getD p "" =
      (u.get (headers.getD p "")).getD
        (((headers :: dataRows).getD (u.row_index - 1) []).getD p "") := by
  obtain ⟨x, hxmem, hxeq⟩ := List.mem_map.mp hmem
  have hxb := collectGo_rowIndex_bound (headers.length - 1) dataRows 1 x hxmem
  have hub : 2 ≤ u.row_index ∧ u.row_index ≤ 1 + dataRows.length := by
    rw [← hxeq]
    omega
  have hrp : u.row_index - 1 < (headers :: dataRows).length := by
    simp only [List.length_cons]
    omega
  have hrowmem : (headers :: dataRows).getD (u.row_index - 1) [] ∈
      headers :: dataRows := by
    rw [List.getD_eq_getElem?_getD, List.getElem?_eq_getElem hrp]
    exact List.getElem_mem hrp
  have hrowlen : ((headers :: dataRows).getD (u.row_index - 1) []).length =
      headers.length := hrect _ hrowmem
  obtain ⟨l1, l2, hsplit⟩ := List.append_of_mem hu
  subst hsplit
  rw [List.map_append, List.map_cons] at hnodup
  have hne1 : ∀ u' ∈ l1, u'.row_index ≠ u.row_index := by
    intro u' hm heq
    have hdisj := List.disjoint_of_nodup_append hnodup
    exact hdisj (List.mem_map_of_mem _ hm)
      (by rw [heq]; exact List.mem_cons_self _ _)
  have hne2 : ∀ u' ∈ l2, u'.row_index ≠ u.row_index := by
    intro u' hm heq
    have hr := (List.Nodup.of_append_right hnodup)
    rw [List.nodup_cons] at hr
    exact hr.1 (by rw [← heq]; exact List.mem_map_of_mem _ hm)
  have hpos1 : ∀ u' ∈ l1, u.row_index - 1 ≠ u'.row_index - 1 := by
    intro u' hm heq
    have := hne1 u' hm
    omega
  have hpos2 : ∀ u' ∈ l2, u.row_index - 1 ≠ u'.row_index - 1 := by
    intro u' hm heq
    have := hne2 u' hm
    omega
  have hgoal : applyUpdates headers (headers.length - 1) (headers :: dataRows)
      (l1 ++ u :: l2)
      = applyUpdates headers (headers.length - 1)
          (applyUpdate headers (headers.length - 1)
            (applyUpdates headers (headers.length - 1) (headers :: dataRows) l1)
            u) l2 := by
    simp only [applyUpdates, List.foldl_append, List.foldl_cons]
  rw [hgoal, applyUpdates_other_row headers (headers.length - 1) l2 _ _ hpos2]
  have hg1 : (applyUpdates headers (headers.length - 1) (headers :: dataRows)
      l1).getD (u.row_index - 1) [] =
      (headers :: dataRows).getD (u.row_index - 1) [] :=
    applyUpdates_other_row headers (headers.length - 1) l1 _ _ hpos1
  have hg1len : (applyUpdates headers (headers.length - 1)
      (headers :: dataRows) l1).length = (headers :: dataRows).length :=
    applyUpdates_length headers (headers.length - 1) l1 _
  show ((applyUpdateGo u (headers.length - 1) (u.row_index - 1) headers 0
      (applyUpdates headers (headers.length - 1) (headers :: dataRows)
        l1)).getD (u.row_index - 1) []).getD p "" = _
  rw [applyUpdateGo_read u (headers.length - 1) (u.row_index - 1) headers 0 _ p
    (Nat.zero_le p) (by simpa using hp) (by rw [hg1len]; exact hrp)
    (by rw [hg1, hrowlen]; exact hp)]
  rw [if_neg hpc, hg1, Nat.sub_zero]

/-- Witness for C2 at a concrete grid, one update carrying only the
Title field: the Title cell takes the returned value; the fallback in
the theorem covers the untouched columns. -/
theorem revised_row_cell_values_witness :
    (∀ row ∈ [["Title", "Comment"], ["a", "fix"]],
      row.length = (["Title", "Comment"] : List String).length) ∧
    (([⟨2, [("Title", "b")]⟩] : List RevisedRow).map
      (fun x => x.row_index)).Nodup ∧
    ((⟨2, [("Title", "b")]⟩ : RevisedRow) ∈
      ([⟨2, [("Title", "b")]⟩] : List RevisedRow)) ∧
    ((2 : Nat) ∈ (commentedRowsOf ["Title", "Comment"] [["a", "fix"]]).map
      (fun x => x.rowIndex)) ∧
    ((applyUpdates ["Title", "Comment"]
        ((["Title", "Comment"] : List String).length - 1)
        (["Title", "Comment"] :: [["a", "fix"]])
        [⟨2, [("Title", "b")]⟩]).getD
        ((⟨2, [("Title", "b")]⟩ : RevisedRow).row_index - 1) []).getD 0 "" =
      ((⟨2, [("Title", "b")]⟩ : RevisedRow).get
          ((["Title", "Comment"] : List String).getD 0 "")).getD
        (((["Title", "Comment"] :: [["a", "fix"]]).getD
          ((⟨2, [("Title", "b")]⟩ : RevisedRow).row_index - 1) []).getD 0 "") :=
  ⟨by decide, by decide, by decide, by decide,
    revised_row_cell_values ["Title", "Comment"] [["a", "fix"]]
      [⟨2, [("Title", "b")]⟩] ⟨2, [("Title", "b")]⟩
      (by decide) (by decide) (by decide) (by decide) 0 (by decide) (by decide)⟩

/-- JSON Schema property value types used by `generateSchema`: the
row_index property is integer-typed, every header property
string-typed. -/
inductive JType
  | str
  | int
deriving DecidableEq, Repr

/-- JS object assignment `obj[k] = v` on an insertion-ordered object:
overwrite in place when the key already exists, append otherwise. -/
def objSet (l : List (String × JType)) (k : String) (v : JType) :
    List (String × JType) :=
  if l.any (fun q => q.1 == k) then
    l.map (fun q => if q.1 == k then (k, v) else q)
  else l ++ [(k, v)]

/-- JS object property read. -/
def objLookup (l : List (String × JType)) (k : String) : Option JType :=
  (l.find? (fun q => q.1 == k)).map (fun q => q.2)

/-- The row-object item schema built by `OpenAIService.generateSchema`
(src/backend/src/services/openai.ts lines 267-292): properties,
required field names and the additionalProperties flag. The outer
wrapper — an object with one required `rows` array of these items and
additionalProperties false — is constant and not modeled further. -/
structure RowItemSchema where
  properties : List (String × JType)
  required : List String
  additionalProperties : Bool
deriving DecidableEq, Repr

/-- Embedding of `OpenAIService.generateSchema`: the properties object
starts as `{ row_index: integer }` and every header is then assigned a
string property (`properties[header]` is assigned a string type, a JS
assignment that overwrites an existing key in place);
required is row_index concatenated with the headers;
additionalProperties is
false. The function body cannot throw. -/
def generateSchema (headers : List String) : RowItemSchema :=
  ⟨headers.foldl (fun acc h => objSet acc h JType.str)
      [("row_index", JType.int)],
    "row_index" :: headers,
    false⟩

/-- Embedding of the headers validation of `POST /api/schema/generate`
(src/backend/src/routes/schema.ts lines 39-47) composed with
`generateSchema`: an empty headers array is rejected with the 400
INVALID_HEADERS response — the InvalidInputError of the spec — before the
schema builder runs. The userId validation, usage limiting and usage
recording touch only external services and are omitted. -/
def generateSchemaEndpoint (headers : List String) :
    Except String RowItemSchema :=
  if headers.isEmpty then Except.error "INVALID_HEADERS"
  else Except.ok (generateSchema headers)

theorem find?_objSet_map (k : String) (v : JType) :
    ∀ l : List (String × JType),
      (l.map (fun q => if q.1 == k then (k, v) else q)).find?
          (fun q => q.1 == k) =
        (if l.any (fun q => q.1 == k) then some (k, v) else none) := by
  intro l
  induction l with
  | nil => rfl
  | cons a t ih =>
      rw [List.map_cons, List.any_cons]
      simp only [beq_iff_eq] at ih
      by_cases ha : a.1 = k
      · simp [-List.find?_map, List.find?_cons, ha]
      · have ha2 : (a.1 == k) = false := by
          rw [beq_eq_false_iff_ne]
          exact ha
        simp [-List.find?_map, List.find?_cons, ha, ih]
        rw [ha2, Bool.false_or]

theorem find?_append_single (k : String) (v : JType) :
    ∀ l : List (String × JType), l.any (fun q => q.1 == k) = false →
      (l ++ [(k, v)]).find? (fun q => q.1 == k) = some (k, v) := by
  intro l
  induction l with
  | nil => intro _; simp [List.find?_cons]
  | cons a t ih =>
      intro h
      rw [List.any_cons, Bool.or_eq_false_iff] at h
      simp [List.find?_cons, h.1, ih h.2]

theorem objLookup_objSet_self (k : String) (v : JType)
    (l : List (String × JType)) :
    objLookup (objSet l k v) k = some v := by
  unfold objSet objLookup
  cases hany : l.any (fun q => q.1 == k) with
  | true =>
      simp only [hany, if_true]
      rw [find?_objSet_map k v l, if_pos hany]
      rfl
  | false =>
      simp only [hany, Bool.false_eq_true, if_false]
      rw [find?_append_single k v l hany]
      rfl

theorem find?_objSet_map_ne (k k2 : String) (v : JType) (hk : k2 ≠ k) :
    ∀ l : List (String × JType),
      (l.map (fun q => if q.1 == k then (k, v) else q)).find?
          (fun q => q.1 == k2) =
        l.find? (fun q => q.1 == k2) := by
  intro l
  induction l with
  | nil => rfl
  | cons a t ih =>
      rw [List.map_cons]
      have hk2 : k ≠ k2 := Ne.symm hk
      simp only [beq_iff_eq] at ih
      by_cases ha : a.1 = k
      · simp [-List.find?_map, List.find?_cons, ha, hk, hk2, ih]
      · by_cases hb : a.1 = k2
        · simp [-List.find?_map, List.find?_cons, ha, hb, hk, hk2]
        · simp [-List.find?_map, List.find?_cons, ha, hb, ih]

theorem find?_append_single_ne (k k2 : String) (v : JType) (hk : k2 ≠ k) :
    ∀ l : List (String × JType),
      (l ++ [(k, v)]).find? (fun q => q.1 == k2) =
        l.find? (fun q => q.1 == k2) := by
  intro l
  induction l with
  | nil =>
      have h1 : ((k : String) == k2) = false := by
        rw [beq_eq_false_iff_ne]
        exact Ne.symm hk
      simp [List.find?_cons, h1]
  | cons a t ih =>
      cases hb : a.1 == k2 with
      | true => simp [List.find?_cons, hb]
      | false => simp [List.find?_cons, hb, ih]

theorem objLookup_objSet_ne (l : List (String × JType)) (k k2 : String)
    (v : JType) (hk : k2 ≠ k) :
    objLookup (objSet l k v) k2 = objLookup l k2 := by
  unfold objSet objLookup
  cases hany : l.any (fun q => q.1 == k) with
  | true =>
      simp only [hany, if_true]
      rw [find?_objSet_map_ne k k2 v hk l]
  | false =>
      simp only [hany, Bool.false_eq_true, if_false]
      rw [find?_append_single_ne k k2 v hk l]

theorem objLookup_foldl_headers (k : String) :
    ∀ (headers : List String) (l : List (String × JType)),
      objLookup (headers.foldl (fun acc h => objSet acc h JType.str) l) k =
        (if k ∈ headers then some JType.str else objLookup l k) := by
  intro headers
  induction headers with
  | nil => intro l; simp
  | cons h hs ih =>
      intro l
      show objLookup (hs.foldl (fun acc h2 => objSet acc h2 JType.str)
        (objSet l h JType.str)) k = _
      rw [ih (objSet l h JType.str)]
      by_cases hmem : k ∈ hs
      · rw [if_pos hmem, if_pos (List.mem_cons_of_mem h hmem)]
      · rw [if_neg hmem]
        by_cases hkh : k = h
        · subst hkh
          rw [if_pos (List.mem_cons_self k hs), objLookup_objSet_self]
        · rw [if_neg (by simp [List.mem_cons, hkh, hmem]),
            objLookup_objSet_ne l h k JType.str hkh]

/-- C9 counterexample: with the single (non-empty) header list
["row_index"] the builder succeeds, but the row_index property it
emits is string-typed, not integer-typed — the verbatim header
assignment overwrites the integer row_index property, refuting the
claimed "alongside the required integer row_index" for this input. -/
theorem schema_row_index_header_overridden :
    generateSchemaEndpoint ["row_index"] =
      Except.ok (generateSchema ["row_index"]) ∧
    objLookup (generateSchema ["row_index"]).properties "row_index" =
      some JType.str ∧
    ¬ objLookup (generateSchema ["row_index"]).properties "row_index" =
      some JType.int :=
  ⟨rfl, rfl, by decide⟩

/-- C9 amended: the empty header list is rejected with
INVALID_HEADERS; for every non-empty header list the builder succeeds
with additionalProperties false, requires row_index followed by every
header name verbatim, gives every header (unsanitized, including
non-ASCII names) a string-typed property, and — provided no header is
itself named row_index — keeps the integer-typed row_index property. -/
theorem generateSchema_spec (headers : List String) (hne : headers ≠ []) :
    generateSchemaEndpoint headers = Except.ok (generateSchema headers) ∧
    (generateSchema headers).additionalProperties = false ∧
    (generateSchema headers).required = "row_index" :: headers ∧
    (∀ h ∈ headers,
      objLookup (generateSchema headers).properties h = some JType.str) ∧
    ("row_index" ∉ headers →
      objLookup (generateSchema headers).properties "row_index" =
        some JType.int) := by
  refine ⟨?_, rfl, rfl, ?_, ?_⟩
  · simp [generateSchemaEndpoint, List.isEmpty_iff, hne]
  · intro h hm
    show objLookup (headers.foldl (fun acc h2 => objSet acc h2 JType.str)
      [("row_index", JType.int)]) h = _
    rw [objLookup_foldl_headers, if_pos hm]
  · intro hni
    show objLookup (headers.foldl (fun acc h2 => objSet acc h2 JType.str)
      [("row_index", JType.int)]) "row_index" = _
    rw [objLookup_foldl_headers, if_neg hni]
    rfl

/-- Witness for the amended C9 at a concrete header list with a
non-ASCII column name. -/
theorem generateSchema_spec_witness :
    ((["タイトル", "Comment"] : List String) ≠ []) ∧
    (generateSchemaEndpoint ["タイトル", "Comment"] =
        Except.ok (generateSchema ["タイトル", "Comment"]) ∧
      (generateSchema ["タイトル", "Comment"]).additionalProperties = false ∧
      (generateSchema ["タイトル", "Comment"]).required =
        "row_index" :: ["タイトル", "Comment"] ∧
      (∀ h ∈ (["タイトル", "Comment"] : List String),
        objLookup (generateSchema ["タイトル", "Comment"]).properties h =
          some JType.str) ∧
      ("row_index" ∉ (["タイトル", "Comment"] : List String) →
        objLookup (generateSchema ["タイトル", "Comment"]).properties
          "row_index" = some JType.int)) :=
  ⟨by decide, generateSchema_spec ["タイトル", "Comment"] (by decide)⟩

/-- Embedding of the row_index fixup of `OpenAIService.rewriteBatch`
(src/backend/src/services/openai.ts lines 240-249):
`parsed.rows.map((row, idx) => ({ ...row, row_index: rows[idx].row_index }))`,
walking the parsed rows and the input rows positionally. When the
response carries more rows than the request, `rows[idx]` is undefined
and the member access throws (line 245), modeled as `none`. -/
def fixRowsGo : List RevisedRow → List FormattedItem → Option (List RevisedRow)
  | [], _ => some []
  | r :: rs, b :: bs =>
      (fixRowsGo rs bs).map (fun t => { r with row_index := b.row_index } :: t)
  | _ :: _, [] => none

/-- The successful-path post-processing of `rewriteBatch`: the fixed
rows, or the caught-and-rethrown failure. -/
def rewriteBatchFix (input : List FormattedItem) (parsed : List RevisedRow) :
    Except String (List RevisedRow) :=
  match fixRowsGo parsed input with
  | some out => Except.ok out
  | none => Except.error "Failed to rewrite batch"

theorem fixRowsGo_eq_length :
    ∀ (parsed : List RevisedRow) (input : List FormattedItem),
      parsed.length = input.length →
      ∃ out, fixRowsGo parsed input = some out ∧
        out.map (fun r => r.row_index) = input.map (fun b => b.row_index) := by
  intro parsed
  induction parsed with
  | nil =>
      intro input hlen
      have hj : input = [] :=
        List.eq_nil_of_length_eq_zero (by simpa using hlen.symm)
      subst hj
      exact ⟨[], rfl, rfl⟩
  | cons r rs ih =>
      intro input hlen
      cases input with
      | nil => simp at hlen
      | cons b bs =>
          obtain ⟨out, ho, hm⟩ := ih bs (by simpa using hlen)
          refine ⟨{ r with row_index := b.row_index } :: out, ?_, ?_⟩
          · simp [fixRowsGo, ho]
          · simp [hm]

/-- C10: when the parsed response has exactly as many rows as the
request, the backend fixup succeeds and replaces every returned
row_index positionally with the corresponding input row_index —
regardless of what the LLM emitted — so every output row has a row_index that
occurs in the request batch and downstream row_index reconciliation
never discards a row for a mismatched index. -/
theorem rewriteBatch_row_index_positional (input : List FormattedItem)
    (parsed : List RevisedRow) (hlen : parsed.length = input.length) :
    ∃ out, rewriteBatchFix input parsed = Except.ok out ∧
      out.map (fun r => r.row_index) = input.map (fun b => b.row_index) ∧
      ∀ r ∈ out, ∃ b ∈ input, b.row_index = r.row_index := by
  obtain ⟨out, ho, hm⟩ := fixRowsGo_eq_length parsed input hlen
  refine ⟨out, ?_, hm, ?_⟩
  · simp [rewriteBatchFix, ho]
  · intro r hr
    have hidx : r.row_index ∈ input.map (fun b => b.row_index) := by
      rw [← hm]
      exact List.mem_map_of_mem _ hr
    obtain ⟨b, hb, hbe⟩ := List.mem_map.mp hidx
    exact ⟨b, hb, hbe⟩

/-- Witness for C10: one input row with row_index 5, one parsed row
whose emitted row_index 9 is overwritten to 5. -/
theorem rewriteBatch_row_index_positional_witness :
    (([⟨9, [("Title", "x")]⟩] : List RevisedRow).length =
      ([⟨5, [], "c"⟩] : List FormattedItem).length) ∧
    (∃ out, rewriteBatchFix ([⟨5, [], "c"⟩] : List FormattedItem)
        ([⟨9, [("Title", "x")]⟩] : List RevisedRow) = Except.ok out ∧
      out.map (fun r => r.row_index) =
        ([⟨5, [], "c"⟩] : List FormattedItem).map (fun b => b.row_index) ∧
      ∀ r ∈ out, ∃ b ∈ ([⟨5, [], "c"⟩] : List FormattedItem),
        b.row_index = r.row_index) :=
  ⟨by decide,
    rewriteBatch_row_index_positional [⟨5, [], "c"⟩] [⟨9, [("Title", "x")]⟩]
      (by decide)⟩
